import Mathlib

/-!
Shallow embedding of the `manifest-feature-gen` crate (files `src/lib.rs`,
`src/manifest.rs`) for checking its natural-language specification.

The crate edits the `[features]` table of a Cargo manifest: it loads the
document, snapshots the existing feature table, removes previously generated
entries (identified by a trailing marker comment), regenerates features with
conflict-checked dependency edges, and writes the file back only when the
table changed.

Modelling conventions:
- Rust `String` operations are modelled on `List Char` (`String.data`).
  Rust byte indexing/length coincides with character indexing for the ASCII
  data these routines handle, and UTF-8 byte order coincides with code-point
  order, so the character-level model is faithful on all valid inputs.
- `HashSet`/`HashMap` are modelled as duplicate-free lists with membership
  based insertion; equality of maps/sets is an explicit order-independent
  comparison function.
- The `toml_edit` document is modelled as an ordered association list of
  items; an array value carries its trailing decoration (suffix comment).
- Filesystem reads/parses are external per the crate boundary: `Manifest.new`
  takes the already-parsed document; `Manifest.write` returns the list of
  file writes it performs instead of doing IO.
- Rust panics (`unwrap`) are modelled as `Option.none`; fallible functions
  return `Except`.
-/

/-! ## String primitives (modelling Rust `str` operations on `List Char`) -/

/-- Rust `str::split(c)`: splits at every occurrence of `c`, keeping empty
pieces (e.g. `"a/" → ["a", ""]`). `acc` is the current piece, reversed. -/
def splitCharAux (c : Char) : List Char → List Char → List String
  | [], acc => [⟨acc.reverse⟩]
  | x :: xs, acc =>
    if x = c then ⟨acc.reverse⟩ :: splitCharAux c xs []
    else splitCharAux c xs (x :: acc)

/-- Rust `str::split(c)` collected to a list. -/
def strSplit (s : String) (c : Char) : List String := splitCharAux c s.data []

/-- Rust `str::contains(c)`. -/
def strContains (s : String) (c : Char) : Bool := s.data.contains c

/-- Rust `str::ends_with(c)`. -/
def strEndsWith (s : String) (c : Char) : Bool := s.data.getLast? = some c

/-- Rust `&s[0..n]` (character-level; the sources slice ASCII data). -/
def strTake (s : String) (n : Nat) : String := ⟨s.data.take n⟩

/-- Rust `str::len()` (character-level; coincides with bytes on ASCII). -/
def strLen (s : String) : Nat := s.data.length

/-- Rust `str::trim`: strips whitespace from both ends. -/
def strTrim (s : String) : String :=
  ⟨((s.data.dropWhile Char.isWhitespace).reverse.dropWhile Char.isWhitespace).reverse⟩

/-- Rust `str::to_uppercase` (character-wise; coincides on ASCII). -/
def strToUpper (s : String) : String := ⟨s.data.map Char.toUpper⟩

/-- Rust `str::replace(c, r)` for a single-character pattern and replacement. -/
def strReplaceChar (s : String) (c r : Char) : String :=
  ⟨s.data.map fun x => if x = c then r else x⟩

/-- Lexicographic comparison of character lists; Rust's `Ord` on `String`
compares UTF-8 bytes, which orders exactly like code points. -/
def charsLe : List Char → List Char → Bool
  | [], _ => true
  | _ :: _, [] => false
  | x :: xs, y :: ys => if x < y then true else if y < x then false else charsLe xs ys

/-- The order `Vec<String>::sort` sorts by. -/
def depStrLe (a b : String) : Prop := charsLe a.data b.data = true

instance : DecidableRel depStrLe := fun a b => by unfold depStrLe; infer_instance

/-- Rust `Vec<String>::sort()`: a stable sort by `depStrLe`; any sort
producing a sorted permutation yields the same list (antisymmetry), so
insertion sort is extensionally the same function. -/
def sortStrings (l : List String) : List String := List.insertionSort depStrLe l

/-! ## Dependency model (`src/manifest.rs` lines 24-53) -/

/-- `enum Dependency` -/
inductive Dependency where
  | Simple : String → Dependency
  | CrateFeature : String → String → Dependency
  | OptionalCrateFeature : String → String → Dependency
deriving DecidableEq

/-- `Dependency::into_string` -/
def Dependency.into_string : Dependency → String
  | Dependency.Simple feature => feature
  | Dependency.CrateFeature crate_name feature => crate_name ++ "/" ++ feature
  | Dependency.OptionalCrateFeature crate_name feature => crate_name ++ "?/" ++ feature

/-- `enum DependencyError` -/
inductive DependencyError where
  | Conflict : DependencyError
  | InvalidDependencyFormat : DependencyError
deriving DecidableEq

/-- `struct DependencyHelper<'a>(&'a str, HashSet<Dependency>)`: field `0` is
the feature's own name, field `1` the edge set (duplicate-free list). -/
structure DependencyHelper where
  feature_name : String
  deps : List Dependency
deriving DecidableEq

/-- `HashSet::insert`: a no-op when the element is already present. -/
def hsInsert (s : List Dependency) (d : Dependency) : List Dependency :=
  if d ∈ s then s else s ++ [d]

/-- `DependencyHelper::add_crate_feature_dependency` (lines 65-91): probes the
opposite variant as the conflict; on success the `match` maps the probe back,
inserting the requested variant. The `d => d` arm models `unreachable!()`
(the scrutinee is never `Simple`). -/
def DependencyHelper.add_crate_feature_dependency (h : DependencyHelper)
    (crate_name feature_name : String) (optional : Bool) :
    Except DependencyError DependencyHelper :=
  let conflict := if optional then Dependency.CrateFeature crate_name feature_name
    else Dependency.OptionalCrateFeature crate_name feature_name
  if conflict ∈ h.deps then
    Except.error DependencyError.Conflict
  else
    Except.ok { h with deps := hsInsert h.deps (match conflict with
      | Dependency.OptionalCrateFeature crate_name feature_name =>
          Dependency.CrateFeature crate_name feature_name
      | Dependency.CrateFeature crate_name feature_name =>
          Dependency.OptionalCrateFeature crate_name feature_name
      | d => d) }

/-- `DependencyHelper::propagate_to_crate` (lines 57-63). -/
def DependencyHelper.propagate_to_crate (h : DependencyHelper)
    (crate_name : String) (optional : Bool) : Except DependencyError DependencyHelper :=
  h.add_crate_feature_dependency crate_name h.feature_name optional

/-- `DependencyHelper::add_dependency` (lines 94-118). The wildcard arm models
the `ok_or(InvalidDependencyFormat)` on the first two `next()` calls, which
cannot fire when the name contains `/`. Note the source computes
`&crate_name[0..(crate_name.len() - 2)]`, stripping TWO trailing characters. -/
def DependencyHelper.add_dependency (h : DependencyHelper) (dependency_name : String) :
    Except DependencyError DependencyHelper :=
  if strContains dependency_name '/' then
    match strSplit dependency_name '/' with
    | crate_name :: feature_name :: rest =>
      if rest ≠ [] then
        Except.error DependencyError.InvalidDependencyFormat
      else
        let parsed := if strEndsWith crate_name '?' then
            (strTake crate_name (strLen crate_name - 2), true)
          else (crate_name, false)
        h.add_crate_feature_dependency parsed.1 feature_name parsed.2
    | _ => Except.error DependencyError.InvalidDependencyFormat
  else
    Except.ok { h with deps := hsInsert h.deps (Dependency.Simple dependency_name) }

/-- One public helper call, for reasoning about call sequences. -/
inductive HelperOp where
  | addDep : String → HelperOp
  | propagate : String → Bool → HelperOp

/-- Dispatches one helper call. -/
def runOp (h : DependencyHelper) : HelperOp → Except DependencyError DependencyHelper
  | HelperOp.addDep s => h.add_dependency s
  | HelperOp.propagate c opt => h.propagate_to_crate c opt

/-- State after one call; a failed call leaves the set untouched (no branch of
the helper mutates before returning an error). -/
def stepOp (h : DependencyHelper) (op : HelperOp) : DependencyHelper :=
  match runOp h op with
  | Except.ok h' => h'
  | Except.error _ => h

/-- State after a sequence of helper calls. -/
def runOps (h : DependencyHelper) : List HelperOp → DependencyHelper
  | [] => h
  | op :: rest => runOps (stepOp h op) rest

/-- The mutual-exclusion invariant of one helper's edge set: no (package,
feature) pair is present in both the mandatory and the optional form. -/
def NoConflictPair (h : DependencyHelper) : Prop :=
  ∀ p f, ¬(Dependency.CrateFeature p f ∈ h.deps ∧
           Dependency.OptionalCrateFeature p f ∈ h.deps)



/-! ## `toml_edit` document model and `Manifest` (`src/manifest.rs` 17-22, 121-316)

An `Item` is a node of the parsed document tree. `Item.array` models
`Item::Value(Value::Array)` together with the array's trailing decoration
(`decor().suffix()`, `none` when absent); `Item.table` models `Item::Table`
(an inline-table value is `Item.other`, whose `as_table`/`as_array` are
`none`, exactly as in `toml_edit`). A toml table cannot hold two entries with
the same key, so documents of interest have duplicate-free key lists. -/

/-- One node of the parsed document. -/
inductive Item where
  | str : String → Item
  | array : List Item → Option String → Item
  | table : List (String × Item) → Item
  | other : Item

/-- `Item::as_str`. -/
def Item.as_str : Item → Option String
  | Item.str s => some s
  | _ => none

/-- `Item::as_array`, returning the elements and the trailing decoration. -/
def Item.as_array : Item → Option (List Item × Option String)
  | Item.array xs suffix => some (xs, suffix)
  | _ => none

/-- `Item::as_table`. -/
def Item.as_table : Item → Option (List (String × Item))
  | Item.table t => some t
  | _ => none

/-- `Table::get` / map lookup (first matching key). -/
def assocLookup {α : Type} : List (String × α) → String → Option α
  | [], _ => none
  | kv :: rest, key => if kv.1 = key then some kv.2 else assocLookup rest key

/-- `Table::insert`: replaces in place when the key exists, appends otherwise. -/
def tableInsert (t : List (String × Item)) (k : String) (v : Item) : List (String × Item) :=
  if t.any fun kv => kv.1 == k then t.map fun kv => if kv.1 = k then (k, v) else kv
  else t ++ [(k, v)]

/-- In-place update of the item stored under an existing key (models mutating
through `get_mut`; a no-op when the key is absent). -/
def setKey (doc : List (String × Item)) (k : String) (v : Item) : List (String × Item) :=
  doc.map fun kv => if kv.1 = k then (k, v) else kv

/-- `enum Error` (`src/lib.rs` 31-46). IO and parse failures belong to the
external filesystem/parser collaborators and carry no payload here. -/
inductive Error where
  | EnvError : Error
  | IoError : Error
  | ParseError : Error
  | MalformedManifest : String → Error
  | MutualExclusiveFeatureError : List String → Error
  | ManifestChanged : Error

/-- `FEATURES_TABLE_NAME` -/
def FEATURES_TABLE_NAME : String := "features"

/-- `AUTO_GENERATE_COMMENT`: `" # auto-generated by "` followed by
`env!("CARGO_CRATE_NAME")`, which is `manifest_feature_gen` for this crate. -/
def AUTO_GENERATE_COMMENT : String := " # auto-generated by manifest_feature_gen"

/-- `struct Manifest` (lines 17-22). `original_features` models the
`HashMap<String, HashSet<String>>` snapshot; the inner lists are compared with
order-independent set equality (`featureMapsEq`). -/
structure Manifest where
  path : String
  original_features : List (String × List String)
  document : List (String × Item)
  prevent_build_when_changed : Bool

/-- `Manifest::collect_features` (lines 158-189): snapshots the feature table
as a map from feature name to its dependency strings; fails on a non-table
`features` item, a non-array feature value, or a non-string array element.
`List.mapM` stops at the first error like `fallible_iterator`'s `collect`. -/
def Manifest.collect_features (document : List (String × Item)) :
    Except Error (List (String × List String)) :=
  match assocLookup document FEATURES_TABLE_NAME with
  | some features =>
    match features.as_table with
    | none => Except.error (Error.MalformedManifest "features is not a table")
    | some t =>
      t.mapM fun kv =>
        match kv.2.as_array with
        | none => Except.error
            (Error.MalformedManifest ("feature(" ++ kv.1 ++ ") is not a array"))
        | some (deps, _) => do
          let strs ← deps.mapM fun dep =>
            match dep.as_str with
            | some s => Except.ok s
            | none => Except.error (Error.MalformedManifest
                ("feature(" ++ kv.1 ++ ") has non string item as dependency"))
          Except.ok (kv.1, strs)
  | none => Except.ok []

/-- The stale-entry test of `clear_generated_features`: the array value's
trailing comment, trimmed, equals the trimmed marker text. -/
def is_generated (item : Item) : Bool :=
  match item.as_array with
  | some (_, suffix) => decide (strTrim (suffix.getD "") = strTrim AUTO_GENERATE_COMMENT)
  | none => false

/-- First pass of `clear_generated_features` (lines 196-214): walk the table
entries in order, collecting the names of marker-tagged array entries, failing
at the first entry whose value is not an array. -/
def stale_feature_names : List (String × Item) → Except Error (List String)
  | [] => Except.ok []
  | (feature, item) :: rest =>
    match item.as_array with
    | some (_, suffix) =>
      if strTrim (suffix.getD "") = strTrim AUTO_GENERATE_COMMENT then do
        let names ← stale_feature_names rest
        Except.ok (feature :: names)
      else stale_feature_names rest
    | none => Except.error
        (Error.MalformedManifest ("value of feature(" ++ feature ++ ") is not a array"))

/-- `Manifest::clear_generated_features` (lines 191-221): collects the
marker-tagged names first, then removes them from the table as a second pass
(`Table::remove` per collected name, modelled as one filter by name). -/
def Manifest.clear_generated_features (m : Manifest) : Except Error Manifest :=
  match assocLookup m.document FEATURES_TABLE_NAME with
  | none => Except.ok m
  | some features =>
    match features.as_table with
    | none => Except.error (Error.MalformedManifest "features is not a table")
    | some t => do
      let names ← stale_feature_names t
      let cleared := Item.table (t.filter fun kv => !(decide (kv.1 ∈ names)))
      Except.ok { m with document := setKey m.document FEATURES_TABLE_NAME cleared }

/-- `Manifest::new` (lines 126-147), from the already-parsed document (the
file read and toml parse are the external collaborators): snapshot the
features, insert an empty `features` table when absent, strip generated
entries. -/
def Manifest.new (path : String) (document : List (String × Item))
    (prevent_build_when_changed : Bool) : Except Error Manifest := do
  let original_features ← Manifest.collect_features document
  let document := if (assocLookup document FEATURES_TABLE_NAME).isSome then document
    else document ++ [(FEATURES_TABLE_NAME, Item.table [])]
  Manifest.clear_generated_features
    ⟨path, original_features, document, prevent_build_when_changed⟩

/-- The `CARGO_FEATURE_*` indicator variable for a feature name (lines
263-266): hyphens to underscores, uppercased, fixed prefixed. -/
def cargo_feature_var (feature_name : String) : String :=
  "CARGO_FEATURE_" ++ strToUpper (strReplaceChar feature_name '-' '_')

/-- Loop body of `Manifest::add_features` (lines 239-270) for one feature:
build a helper seeded with `__<name>` when that entry exists, run the caller's
dependency declarations, render the edge set sorted, insert the marker-tagged
array, and report whether the feature's environment indicator is present.
The caller's `dependency_setter` closure can touch the helper only through
its two public methods, so it is modelled by the sequence of calls it makes
(`List HelperOp`); errors it receives never mutate the set. -/
def Manifest.process_feature {T : Type} (env : String → Bool) (to_feature_name : T → String)
    (dependency_setter : T → List HelperOp) (features : List (String × Item)) (feature : T) :
    List (String × Item) × Bool :=
  let feature_name := to_feature_name feature
  let manual_dependent_feature := "__" ++ feature_name
  let propagator : DependencyHelper :=
    if (assocLookup features manual_dependent_feature).isSome then
      ⟨feature_name, hsInsert [] (Dependency.Simple manual_dependent_feature)⟩
    else ⟨feature_name, []⟩
  let propagator := runOps propagator (dependency_setter feature)
  let dependencies := sortStrings (propagator.deps.map Dependency.into_string)
  let array := Item.array (dependencies.map Item.str) (some AUTO_GENERATE_COMMENT)
  (tableInsert features feature_name array, env (cargo_feature_var feature_name))

/-- The `for feature in feature_names` loop of `add_features`, threading the
live table and accumulating the selected features in input order. -/
def Manifest.add_features_go {T : Type} (env : String → Bool) (to_feature_name : T → String)
    (dependency_setter : T → List HelperOp) :
    List T → List (String × Item) → List (String × Item) × List T
  | [], features => (features, [])
  | feature :: rest, features =>
    let step := Manifest.process_feature env to_feature_name dependency_setter features feature
    let recres := Manifest.add_features_go env to_feature_name dependency_setter rest step.1
    (recres.1, if step.2 then feature :: recres.2 else recres.2)

/-- `Manifest::add_features` (lines 224-274). The two leading `.unwrap()`s
(`table.get_mut(FEATURES_TABLE_NAME).unwrap().as_table_mut().unwrap()`) are
modelled as `none` (panic); past them the function always returns `Ok`. -/
def Manifest.add_features {T : Type} (m : Manifest) (env : String → Bool)
    (to_feature_name : T → String) (dependency_setter : T → List HelperOp)
    (feature_names : List T) : Option (Manifest × List T) :=
  match assocLookup m.document FEATURES_TABLE_NAME with
  | some (Item.table t) =>
    let res := Manifest.add_features_go env to_feature_name dependency_setter feature_names t
    some ({ m with document := setKey m.document FEATURES_TABLE_NAME (Item.table res.1) },
      res.2)
  | _ => none

/-- `Manifest::add_mutually_exclusive_features` (lines 278-295): runs
`add_features`, then fails when more than one feature was selected, naming all
selected features in order; otherwise returns the lone selection, if any. -/
def Manifest.add_mutually_exclusive_features {T : Type} (m : Manifest) (env : String → Bool)
    (to_feature_name : T → String) (dependency_setter : T → List HelperOp)
    (feature_names : List T) : Option (Manifest × Except Error (Option T)) :=
  match m.add_features env to_feature_name dependency_setter feature_names with
  | none => none
  | some (m', specified) =>
    some (m', if specified.length > 1 then
        Except.error (Error.MutualExclusiveFeatureError (specified.map to_feature_name))
      else Except.ok specified.head?)

/-- `HashSet<String>` equality: same elements, order- and
multiplicity-independent. -/
def hashSetEqStr (a b : List String) : Bool :=
  (a.all fun x => decide (x ∈ b)) && (b.all fun x => decide (x ∈ a))

/-- `HashMap<String, HashSet<String>>` equality: same keys, and set-equal
values under each key. -/
def featureMapsEq (a b : List (String × List String)) : Bool :=
  (a.all fun kv =>
    match assocLookup b kv.1 with
    | some ds => hashSetEqStr kv.2 ds
    | none => false) &&
  (b.all fun kv => (assocLookup a kv.1).isSome)

/-- `Manifest::check_is_changed` (lines 297-301). -/
def Manifest.check_is_changed (m : Manifest) : Except Error Bool := do
  let current_features ← Manifest.collect_features m.document
  Except.ok (!(featureMapsEq current_features m.original_features))

/-- `Manifest::write` (lines 304-315). The second component records the file
writes performed: `(path, document)` pairs, the document standing for its
serialization by the external round-tripping serializer. -/
def Manifest.write (m : Manifest) :
    Except Error Bool × List (String × List (String × Item)) :=
  match m.check_is_changed with
  | Except.error e => (Except.error e, [])
  | Except.ok true =>
    ((if m.prevent_build_when_changed then Except.error Error.ManifestChanged
      else Except.ok true), [(m.path, m.document)])
  | Except.ok false => (Except.ok false, [])

/-! ## Lemmas: the lexicographic order and `sortStrings` -/

theorem charsLe_cons {x y : Char} {xs ys : List Char} :
    charsLe (x :: xs) (y :: ys) = true ↔ x < y ∨ (x = y ∧ charsLe xs ys = true) := by
  simp only [charsLe]
  split
  · next h => simp [h]
  · next h1 =>
    split
    · next h2 =>
      simp only [Bool.false_eq_true, false_iff]
      rintro (h | ⟨h, -⟩)
      · exact h1 h
      · subst h; exact absurd h2 (lt_irrefl x)
    · next h2 =>
      have hxy : x = y := le_antisymm (not_lt.mp h2) (not_lt.mp h1)
      simp [hxy, lt_irrefl]

theorem charsLe_total (a b : List Char) : charsLe a b = true ∨ charsLe b a = true := by
  induction a generalizing b with
  | nil => left; rfl
  | cons x xs ih =>
    cases b with
    | nil => right; rfl
    | cons y ys =>
      rcases lt_trichotomy x y with h | h | h
      · left; simp [charsLe, h]
      · subst h; rcases ih ys with h | h <;> [left; right] <;> simp [charsLe, lt_irrefl, h]
      · right; simp [charsLe, h]

theorem charsLe_trans : ∀ {a b c : List Char}, charsLe a b = true → charsLe b c = true →
    charsLe a c = true
  | [], _, _, _, _ => rfl
  | _ :: _, [], _, hab, _ => by simp [charsLe] at hab
  | _ :: _, _ :: _, [], _, hbc => by simp [charsLe] at hbc
  | x :: xs, y :: ys, z :: zs, hab, hbc => by
    rw [charsLe_cons] at hab hbc ⊢
    rcases hab with h1 | ⟨h1, r1⟩
    · rcases hbc with h2 | ⟨h2, r2⟩
      · exact Or.inl (lt_trans h1 h2)
      · subst h2; exact Or.inl h1
    · subst h1
      rcases hbc with h2 | ⟨h2, r2⟩
      · exact Or.inl h2
      · subst h2; exact Or.inr ⟨rfl, charsLe_trans r1 r2⟩

theorem charsLe_antisymm : ∀ {a b : List Char}, charsLe a b = true → charsLe b a = true → a = b
  | [], [], _, _ => rfl
  | [], _ :: _, _, hba => by simp [charsLe] at hba
  | _ :: _, [], hab, _ => by simp [charsLe] at hab
  | x :: xs, y :: ys, hab, hba => by
    rw [charsLe_cons] at hab hba
    rcases hab with h1 | ⟨h1, r1⟩
    · rcases hba with h2 | ⟨h2, r2⟩
      · exact absurd (lt_trans h1 h2) (lt_irrefl x)
      · subst h2; exact absurd h1 (lt_irrefl _)
    · subst h1
      rcases hba with h2 | ⟨h2, r2⟩
      · exact absurd h2 (lt_irrefl x)
      · rw [charsLe_antisymm r1 r2]

instance : IsTotal String depStrLe := ⟨fun a b => charsLe_total a.data b.data⟩

instance : IsTrans String depStrLe := ⟨fun _ _ _ hab hbc => charsLe_trans hab hbc⟩

instance : IsAntisymm String depStrLe :=
  ⟨fun _ _ hab hba => String.ext (charsLe_antisymm hab hba)⟩

theorem sortStrings_perm (l : List String) : (sortStrings l).Perm l :=
  List.perm_insertionSort depStrLe l

theorem sortStrings_sorted (l : List String) : (sortStrings l).Sorted depStrLe :=
  List.sorted_insertionSort depStrLe l

theorem sortStrings_eq_of_perm {l₁ l₂ : List String} (h : l₁.Perm l₂) :
    sortStrings l₁ = sortStrings l₂ :=
  List.eq_of_perm_of_sorted ((sortStrings_perm l₁).trans (h.trans (sortStrings_perm l₂).symm))
    (sortStrings_sorted l₁) (sortStrings_sorted l₂)

theorem mem_sortStrings {x : String} {l : List String} : x ∈ sortStrings l ↔ x ∈ l :=
  (sortStrings_perm l).mem_iff

/-! ## Lemmas: the dependency helper -/

theorem mem_hsInsert {l : List Dependency} {x d : Dependency} :
    d ∈ hsInsert l x ↔ d ∈ l ∨ d = x := by
  unfold hsInsert
  split
  · next hmem =>
    constructor
    · exact Or.inl
    · rintro (h | rfl)
      · exact h
      · exact hmem
  · simp

theorem add_cfd_false_eq (h : DependencyHelper) (c f : String) :
    h.add_crate_feature_dependency c f false =
      if Dependency.OptionalCrateFeature c f ∈ h.deps then Except.error DependencyError.Conflict
      else Except.ok ⟨h.feature_name, hsInsert h.deps (Dependency.CrateFeature c f)⟩ := rfl

theorem add_cfd_true_eq (h : DependencyHelper) (c f : String) :
    h.add_crate_feature_dependency c f true =
      if Dependency.CrateFeature c f ∈ h.deps then Except.error DependencyError.Conflict
      else Except.ok ⟨h.feature_name, hsInsert h.deps (Dependency.OptionalCrateFeature c f)⟩ := rfl

theorem add_cfd_mem {h h' : DependencyHelper} {c f : String} {opt : Bool} {d : Dependency}
    (hok : h.add_crate_feature_dependency c f opt = Except.ok h') (hd : d ∈ h.deps) :
    d ∈ h'.deps := by
  cases opt
  · rw [add_cfd_false_eq] at hok
    split at hok
    · exact absurd hok (by simp)
    · cases hok; exact mem_hsInsert.mpr (Or.inl hd)
  · rw [add_cfd_true_eq] at hok
    split at hok
    · exact absurd hok (by simp)
    · cases hok; exact mem_hsInsert.mpr (Or.inl hd)

theorem noConflictPair_insert_simple {h : DependencyHelper} (hinv : NoConflictPair h)
    (n s : String) : NoConflictPair ⟨n, hsInsert h.deps (Dependency.Simple s)⟩ := by
  rintro p f ⟨h1, h2⟩
  simp only [mem_hsInsert] at h1 h2
  rcases h1 with h1 | h1
  · rcases h2 with h2 | h2
    · exact hinv p f ⟨h1, h2⟩
    · cases h2
  · cases h1

theorem add_cfd_preserves {h h' : DependencyHelper} {c f : String} {opt : Bool}
    (hok : h.add_crate_feature_dependency c f opt = Except.ok h')
    (hinv : NoConflictPair h) : NoConflictPair h' := by
  cases opt
  · rw [add_cfd_false_eq] at hok
    split at hok
    · exact absurd hok (by simp)
    · next hnot =>
      cases hok
      rintro p q ⟨h1, h2⟩
      simp only [mem_hsInsert] at h1 h2
      rcases h1 with h1 | h1
      · rcases h2 with h2 | h2
        · exact hinv p q ⟨h1, h2⟩
        · cases h2
      · rcases h2 with h2 | h2
        · injection h1 with hp hq; subst hp; subst hq; exact hnot h2
        · cases h2
  · rw [add_cfd_true_eq] at hok
    split at hok
    · exact absurd hok (by simp)
    · next hnot =>
      cases hok
      rintro p q ⟨h1, h2⟩
      simp only [mem_hsInsert] at h1 h2
      rcases h1 with h1 | h1
      · rcases h2 with h2 | h2
        · exact hinv p q ⟨h1, h2⟩
        · injection h2 with hp hq; subst hp; subst hq; exact hnot h1
      · cases h1

theorem add_dependency_ok_preserves {h h' : DependencyHelper} {s : String}
    (hok : h.add_dependency s = Except.ok h') (hinv : NoConflictPair h) :
    NoConflictPair h' := by
  unfold DependencyHelper.add_dependency at hok
  split at hok
  · split at hok
    · split at hok
      · exact absurd hok (by simp)
      · exact add_cfd_preserves hok hinv
    · exact absurd hok (by simp)
  · cases hok
    exact noConflictPair_insert_simple hinv _ _

theorem add_dependency_mem {h h' : DependencyHelper} {s : String} {d : Dependency}
    (hok : h.add_dependency s = Except.ok h') (hd : d ∈ h.deps) : d ∈ h'.deps := by
  unfold DependencyHelper.add_dependency at hok
  split at hok
  · split at hok
    · split at hok
      · exact absurd hok (by simp)
      · exact add_cfd_mem hok hd
    · exact absurd hok (by simp)
  · cases hok
    exact mem_hsInsert.mpr (Or.inl hd)

theorem stepOp_preserves (h : DependencyHelper) (op : HelperOp) (hinv : NoConflictPair h) :
    NoConflictPair (stepOp h op) := by
  unfold stepOp
  cases hop : runOp h op with
  | error e => exact hinv
  | ok h' =>
    cases op with
    | addDep s => exact add_dependency_ok_preserves hop hinv
    | propagate c opt => exact add_cfd_preserves hop hinv

theorem mem_stepOp {d : Dependency} (h : DependencyHelper) (op : HelperOp)
    (hd : d ∈ h.deps) : d ∈ (stepOp h op).deps := by
  unfold stepOp
  cases hop : runOp h op with
  | error e => exact hd
  | ok h' =>
    cases op with
    | addDep s => exact add_dependency_mem hop hd
    | propagate c opt => exact add_cfd_mem hop hd

theorem runOps_preserves (ops : List HelperOp) (h : DependencyHelper)
    (hinv : NoConflictPair h) : NoConflictPair (runOps h ops) := by
  induction ops generalizing h with
  | nil => exact hinv
  | cons op rest ih => exact ih _ (stepOp_preserves h op hinv)

theorem mem_runOps {d : Dependency} (ops : List HelperOp) (h : DependencyHelper)
    (hd : d ∈ h.deps) : d ∈ (runOps h ops).deps := by
  induction ops generalizing h with
  | nil => exact hd
  | cons op rest ih => exact ih _ (mem_stepOp h op hd)

/-! ## Lemmas: document tables -/

theorem assocLookup_append_none {α : Type} {l : List (String × α)} {k : String}
    (h : assocLookup l k = none) (l' : List (String × α)) :
    assocLookup (l ++ l') k = assocLookup l' k := by
  induction l with
  | nil => rfl
  | cons kv rest ih =>
    have h' : (if kv.1 = k then some kv.2 else assocLookup rest k) = none := h
    split at h'
    · cases h'
    · next hne =>
      rw [List.cons_append]
      show (if kv.1 = k then some kv.2 else assocLookup (rest ++ l') k) = assocLookup l' k
      rw [if_neg hne]
      exact ih h'

theorem assocLookup_setKey_self {l : List (String × Item)} {k : String}
    (h : (assocLookup l k).isSome = true) (v : Item) :
    assocLookup (setKey l k v) k = some v := by
  induction l with
  | nil => simp [assocLookup] at h
  | cons kv rest ih =>
    unfold setKey
    simp only [List.map_cons]
    by_cases hk : kv.1 = k
    · rw [if_pos hk]
      unfold assocLookup
      rw [if_pos rfl]
    · rw [if_neg hk]
      unfold assocLookup
      rw [if_neg hk]
      apply ih
      unfold assocLookup at h
      rwa [if_neg hk] at h

theorem assocLookup_none_of_not_any {t : List (String × Item)} {k : String}
    (h : (t.any fun kv => kv.1 == k) = false) : assocLookup t k = none := by
  induction t with
  | nil => rfl
  | cons kv rest ih =>
    simp only [List.any_cons, Bool.or_eq_false_iff, beq_eq_false_iff_ne] at h
    unfold assocLookup
    rw [if_neg h.1]
    exact ih h.2

theorem assocLookup_map_replace {t : List (String × Item)} {k : String} {v : Item}
    (hany : (t.any fun kv => kv.1 == k) = true) :
    assocLookup (t.map fun kv => if kv.1 = k then (k, v) else kv) k = some v := by
  induction t with
  | nil => simp at hany
  | cons kv rest ih =>
    simp only [List.any_cons, Bool.or_eq_true, beq_iff_eq] at hany
    simp only [List.map_cons]
    by_cases hk : kv.1 = k
    · rw [if_pos hk]
      unfold assocLookup
      rw [if_pos rfl]
    · rw [if_neg hk]
      unfold assocLookup
      rw [if_neg hk]
      exact ih (hany.resolve_left hk)

theorem assocLookup_tableInsert_self (t : List (String × Item)) (k : String) (v : Item) :
    assocLookup (tableInsert t k v) k = some v := by
  unfold tableInsert
  split
  · next hany => exact assocLookup_map_replace hany
  · next hany =>
    rw [assocLookup_append_none (assocLookup_none_of_not_any (Bool.of_not_eq_true hany))]
    unfold assocLookup
    rw [if_pos rfl]

/-! ## Lemmas: stale generated-entry removal -/

theorem stale_feature_names_ok {t : List (String × Item)}
    (h : ∀ kv ∈ t, (Item.as_array kv.2).isSome = true) :
    stale_feature_names t =
      Except.ok ((t.filter fun kv => is_generated kv.2).map Prod.fst) := by
  induction t with
  | nil => rfl
  | cons kv rest ih =>
    obtain ⟨name, item⟩ := kv
    have hrest := ih fun x hx => h x (List.mem_cons_of_mem _ hx)
    have hkv : item.as_array.isSome = true := h (name, item) (List.mem_cons_self _ _)
    unfold stale_feature_names
    split
    · next deps suffix heq =>
      by_cases hgen : strTrim (suffix.getD "") = strTrim AUTO_GENERATE_COMMENT
      · have hgen' : is_generated item = true := by
          unfold is_generated; rw [heq]; exact decide_eq_true hgen
        rw [if_pos hgen, hrest, List.filter_cons, if_pos hgen']
        rfl
      · have hgen' : is_generated item = false := by
          unfold is_generated; rw [heq]; exact decide_eq_false hgen
        rw [if_neg hgen, hrest, List.filter_cons, if_neg]
        rw [hgen']
        simp
    · next heq =>
      rw [heq] at hkv
      cases hkv

theorem stale_feature_names_err {pre post : List (String × Item)} {feature : String}
    {item : Item} (hpre : ∀ kv ∈ pre, (Item.as_array kv.2).isSome = true)
    (hitem : item.as_array = none) :
    stale_feature_names (pre ++ (feature, item) :: post) =
      Except.error (Error.MalformedManifest
        ("value of feature(" ++ feature ++ ") is not a array")) := by
  induction pre with
  | nil =>
    show stale_feature_names ((feature, item) :: post) = _
    unfold stale_feature_names
    split
    · next deps suffix heq => rw [hitem] at heq; cases heq
    · rfl
  | cons kv rest ih =>
    obtain ⟨name, itm⟩ := kv
    have hrest := ih fun x hx => hpre x (List.mem_cons_of_mem _ hx)
    have hkv : itm.as_array.isSome = true := hpre (name, itm) (List.mem_cons_self _ _)
    rw [List.cons_append]
    unfold stale_feature_names
    split
    · next deps suffix heq =>
      by_cases hgen : strTrim (suffix.getD "") = strTrim AUTO_GENERATE_COMMENT
      · rw [if_pos hgen, hrest]
        rfl
      · rw [if_neg hgen, hrest]
    · next heq =>
      rw [heq] at hkv
      cases hkv

theorem filter_stale_names_eq {t : List (String × Item)} (hnd : (t.map Prod.fst).Nodup) :
    (t.filter fun kv =>
        !(decide (kv.1 ∈ (t.filter fun kv' => is_generated kv'.2).map Prod.fst))) =
      t.filter fun kv => !(is_generated kv.2) := by
  apply List.filter_congr
  intro kv hkv
  congr 1
  cases hgen : is_generated kv.2
  · simp only [decide_eq_false_iff_not]
    intro hmem
    obtain ⟨kv', hkv', hfst⟩ := List.mem_map.mp hmem
    have hkv'' := List.mem_filter.mp hkv'
    have heq : kv' = kv := List.inj_on_of_nodup_map hnd hkv''.1 hkv hfst
    rw [heq] at hkv''
    rw [hkv''.2] at hgen
    cases hgen
  · simp only [decide_eq_true_eq]
    exact List.mem_map.mpr ⟨kv, List.mem_filter.mpr ⟨hkv, hgen⟩, rfl⟩

theorem clear_generated_features_table {m : Manifest} {t : List (String × Item)}
    (hl : assocLookup m.document FEATURES_TABLE_NAME = some (Item.table t)) :
    m.clear_generated_features = (do
      let names ← stale_feature_names t
      Except.ok { m with document := setKey m.document FEATURES_TABLE_NAME (Item.table (t.filter fun kv => !(decide (kv.1 ∈ names)))) }) := by
  unfold Manifest.clear_generated_features
  split
  · next heq => rw [hl] at heq; cases heq
  · next features heq =>
    rw [hl] at heq
    injection heq with heq
    subst heq
    rfl

theorem clear_generated_features_lookup {m m' : Manifest}
    (hok : m.clear_generated_features = Except.ok m')
    (hl : ∃ t, assocLookup m.document FEATURES_TABLE_NAME = some (Item.table t)) :
    ∃ t, assocLookup m'.document FEATURES_TABLE_NAME = some (Item.table t) := by
  obtain ⟨t, hl⟩ := hl
  rw [clear_generated_features_table hl] at hok
  cases hs : stale_feature_names t with
  | error e =>
    rw [hs] at hok
    have hcontra : (Except.error e : Except Error Manifest) = Except.ok m' := hok
    cases hcontra
  | ok names =>
    rw [hs] at hok
    have hok2 : Except.ok { m with document := setKey m.document FEATURES_TABLE_NAME (Item.table (t.filter fun kv => !(decide (kv.1 ∈ names)))) } = Except.ok m' := hok
    cases hok2
    exact ⟨_, assocLookup_setKey_self (by rw [hl]; rfl) _⟩

theorem collect_features_ok_shape {doc : List (String × Item)}
    {orig : List (String × List String)}
    (hc : Manifest.collect_features doc = Except.ok orig) :
    assocLookup doc FEATURES_TABLE_NAME = none ∨
      ∃ t, assocLookup doc FEATURES_TABLE_NAME = some (Item.table t) := by
  unfold Manifest.collect_features at hc
  split at hc
  · next features heq =>
    right
    cases hshape : features.as_table with
    | none => rw [hshape] at hc; cases hc
    | some t =>
      refine ⟨t, ?_⟩
      rw [heq]
      cases features with
      | table t0 =>
        injection hshape with hshape
        rw [hshape]
      | str a => cases hshape
      | array a b => cases hshape
      | other => cases hshape
  · next heq => exact Or.inl heq

theorem process_feature_snd {T : Type} (env : String → Bool) (tfn : T → String)
    (ds : T → List HelperOp) (table : List (String × Item)) (feature : T) :
    (Manifest.process_feature env tfn ds table feature).2 =
      env (cargo_feature_var (tfn feature)) := rfl

theorem process_feature_eq_of_manual {T : Type} (env : String → Bool) (tfn : T → String)
    (ds : T → List HelperOp) (table : List (String × Item)) (feature : T)
    (h : (assocLookup table ("__" ++ tfn feature)).isSome = true) :
    Manifest.process_feature env tfn ds table feature =
      (tableInsert table (tfn feature) (Item.array
        ((sortStrings ((runOps
          ⟨tfn feature, hsInsert [] (Dependency.Simple ("__" ++ tfn feature))⟩
          (ds feature)).deps.map Dependency.into_string)).map Item.str)
        (some AUTO_GENERATE_COMMENT)),
       env (cargo_feature_var (tfn feature))) := by
  unfold Manifest.process_feature
  simp only [h, if_true]

theorem add_features_go_snd {T : Type} (env : String → Bool) (tfn : T → String)
    (ds : T → List HelperOp) (fs : List T) (table : List (String × Item)) :
    (Manifest.add_features_go env tfn ds fs table).2 =
      fs.filter fun x => env (cargo_feature_var (tfn x)) := by
  induction fs generalizing table with
  | nil => rfl
  | cons f rest ih =>
    unfold Manifest.add_features_go
    rw [List.filter_cons]
    cases henv : env (cargo_feature_var (tfn f)) <;>
      simp [process_feature_snd, henv, ih]

/-! ## Claim theorems -/

/-- C1 (counterexample): the claim says a non-conflicting insertion stores the
opposite variant of what was requested. Requesting the mandatory variant
(`optional = false`) of `("a", "f")` on an empty helper succeeds and stores
the mandatory edge itself; the opposite (optional) variant is not in the set. -/
theorem add_crate_feature_dependency_not_opposite_variant :
    DependencyHelper.add_crate_feature_dependency ⟨"feat", []⟩ "a" "f" false =
      Except.ok ⟨"feat", [Dependency.CrateFeature "a" "f"]⟩ ∧
    Dependency.OptionalCrateFeature "a" "f" ∉ [Dependency.CrateFeature "a" "f"] :=
  ⟨rfl, by decide⟩

/-- C1 (amended): every successful call to `add_crate_feature_dependency`
inserts the variant that was REQUESTED (the conflict probe is the opposite
variant, and the insertion `match` maps the probe back, so the two inversions
cancel); the feature name is unchanged. -/
theorem add_crate_feature_dependency_inserts_requested_variant
    (h : DependencyHelper) (c f : String) (opt : Bool) (h' : DependencyHelper)
    (hok : h.add_crate_feature_dependency c f opt = Except.ok h') :
    h'.feature_name = h.feature_name ∧
    h'.deps = hsInsert h.deps (if opt then Dependency.OptionalCrateFeature c f
      else Dependency.CrateFeature c f) := by
  cases opt
  · rw [add_cfd_false_eq] at hok
    split at hok
    · exact absurd hok (by simp)
    · cases hok; exact ⟨rfl, rfl⟩
  · rw [add_cfd_true_eq] at hok
    split at hok
    · exact absurd hok (by simp)
    · cases hok; exact ⟨rfl, rfl⟩

/-- Witness for C1 (amended) at a concrete input: requesting the optional
variant of `("a", "f")` on an empty helper. -/
theorem add_crate_feature_dependency_inserts_requested_variant_witness :
    (⟨"feat", [Dependency.OptionalCrateFeature "a" "f"]⟩ : DependencyHelper).feature_name =
      (⟨"feat", []⟩ : DependencyHelper).feature_name ∧
    (⟨"feat", [Dependency.OptionalCrateFeature "a" "f"]⟩ : DependencyHelper).deps =
      hsInsert (⟨"feat", []⟩ : DependencyHelper).deps
        (if true then Dependency.OptionalCrateFeature "a" "f"
          else Dependency.CrateFeature "a" "f") :=
  add_crate_feature_dependency_inserts_requested_variant ⟨"feat", []⟩ "a" "f" true
    ⟨"feat", [Dependency.OptionalCrateFeature "a" "f"]⟩ rfl

/-- C2 (code evaluation at the failing input): the claim says `add_dependency
"a/f"` followed by `add_dependency "a?/f"` on the same helper fails with a
conflict. In the code `"a?"` is sliced to `crate_name[0..len-2] = ""`, so the
second call probes `CrateFeature "" "f"`, finds no conflict, and SUCCEEDS,
inserting `OptionalCrateFeature "" "f"`. The independent-helpers half of the
claim does hold: a lone `add_dependency "a?/f"` on a fresh helper succeeds. -/
theorem add_dependency_conflict_undetected_after_question_mark :
    DependencyHelper.add_dependency ⟨"feat", []⟩ "a/f" =
      Except.ok ⟨"feat", [Dependency.CrateFeature "a" "f"]⟩ ∧
    DependencyHelper.add_dependency ⟨"feat", [Dependency.CrateFeature "a" "f"]⟩ "a?/f" =
      Except.ok ⟨"feat", [Dependency.CrateFeature "a" "f",
        Dependency.OptionalCrateFeature "" "f"]⟩ ∧
    DependencyHelper.add_dependency ⟨"g", []⟩ "a?/f" =
      Except.ok ⟨"g", [Dependency.OptionalCrateFeature "" "f"]⟩ :=
  ⟨rfl, rfl, rfl⟩

/-- C3 (code evaluation at the failing input): `"a/b/c"` is rejected as an
invalid format and `"simple"` renders back as `"simple"`, as claimed; but
`add_dependency "a?/b"` strips TWO characters from the package segment
(`crate_name[0..len-2]`), leaving package `""`, so the stored edge renders as
`"?/b"`, not `"a?/b"` as the claim (and the code's own `ends_with('?')`
check) intends. -/
theorem add_dependency_format_and_rendering_eval :
    DependencyHelper.add_dependency ⟨"feat", []⟩ "a/b/c" =
      Except.error DependencyError.InvalidDependencyFormat ∧
    DependencyHelper.add_dependency ⟨"feat", []⟩ "a?/b" =
      Except.ok ⟨"feat", [Dependency.OptionalCrateFeature "" "b"]⟩ ∧
    Dependency.into_string (Dependency.OptionalCrateFeature "" "b") = "?/b" ∧
    "?/b" ≠ "a?/b" ∧
    DependencyHelper.add_dependency ⟨"feat", []⟩ "simple" =
      Except.ok ⟨"feat", [Dependency.Simple "simple"]⟩ ∧
    Dependency.into_string (Dependency.Simple "simple") = "simple" :=
  ⟨rfl, rfl, by decide, by decide, rfl, rfl⟩

/-- C4: `Manifest.write` compares the re-collected feature table with the
load-time snapshot (same feature names, order-independent dependency-string
sets). When equal it performs no file write and returns `Ok false`; when
different it writes the document to the manifest's path and returns the
`ManifestChanged` signal if `prevent_build_when_changed` is set, `Ok true`
otherwise. (Consumption of the manifest is Rust move semantics, visible in
the `self`-by-value signature.) -/
theorem manifest_write_change_detection (m : Manifest) (cur : List (String × List String))
    (hc : Manifest.collect_features m.document = Except.ok cur) :
    (featureMapsEq cur m.original_features = true → m.write = (Except.ok false, [])) ∧
    (featureMapsEq cur m.original_features = false →
      m.write = ((if m.prevent_build_when_changed then Except.error Error.ManifestChanged
        else Except.ok true), [(m.path, m.document)])) := by
  have hch : m.check_is_changed = Except.ok (!(featureMapsEq cur m.original_features)) := by
    unfold Manifest.check_is_changed
    rw [hc]
    rfl
  constructor
  · intro he
    unfold Manifest.write
    rw [hch, he]
    rfl
  · intro he
    unfold Manifest.write
    rw [hch, he]
    rfl

/-- Witness for C4: an unchanged manifest reports `Ok false` with no write; a
changed one (empty snapshot) writes the document and, with the abort flag
set, returns `ManifestChanged`. -/
theorem manifest_write_change_detection_witness :
    Manifest.write ⟨"p", [("x", ["a"])],
        [("features", Item.table [("x", Item.array [Item.str "a"] none)])], true⟩ =
      (Except.ok false, []) ∧
    Manifest.write ⟨"p", [],
        [("features", Item.table [("x", Item.array [Item.str "a"] none)])], true⟩ =
      (Except.error Error.ManifestChanged,
        [("p", [("features", Item.table [("x", Item.array [Item.str "a"] none)])])]) :=
  ⟨(manifest_write_change_detection ⟨"p", [("x", ["a"])],
      [("features", Item.table [("x", Item.array [Item.str "a"] none)])], true⟩
      [("x", ["a"])] rfl).1 rfl,
   (manifest_write_change_detection ⟨"p", [],
      [("features", Item.table [("x", Item.array [Item.str "a"] none)])], true⟩
      [("x", ["a"])] rfl).2 rfl⟩

/-- C5: `clear_generated_features` on a feature table whose entries are all
arrays removes exactly the marker-tagged entries (trailing comment, trimmed,
equal to the trimmed marker) and keeps every untagged entry unchanged and in
place; the tagged names are fully collected first (`stale_feature_names`) and
only then deleted, so deletion depends solely on the completed collection. If
some entry's value is not an array, it fails with a malformed-manifest error
naming the first such feature, mutating nothing. -/
theorem clear_generated_features_removes_exactly_tagged (m : Manifest)
    (t : List (String × Item))
    (hl : assocLookup m.document FEATURES_TABLE_NAME = some (Item.table t))
    (hnd : (t.map Prod.fst).Nodup) :
    ((∀ kv ∈ t, (Item.as_array kv.2).isSome = true) →
      m.clear_generated_features = Except.ok { m with document := setKey m.document FEATURES_TABLE_NAME (Item.table (t.filter fun kv => !(is_generated kv.2))) }) ∧
    (∀ pre feature item post, t = pre ++ (feature, item) :: post →
      (∀ kv ∈ pre, (Item.as_array kv.2).isSome = true) → item.as_array = none →
      m.clear_generated_features = Except.error (Error.MalformedManifest
        ("value of feature(" ++ feature ++ ") is not a array"))) := by
  constructor
  · intro harr
    rw [clear_generated_features_table hl, stale_feature_names_ok harr]
    exact congrArg (fun l => Except.ok { m with document := setKey m.document FEATURES_TABLE_NAME (Item.table l) }) (filter_stale_names_eq hnd)
  · intro pre feature item post hts hpre hitem
    subst hts
    rw [clear_generated_features_table hl, stale_feature_names_err hpre hitem]
    rfl

/-- Witness for C5: one hand-written and one marker-tagged entry — only the
tagged one is removed; and a table with a non-array entry fails naming it. -/
theorem clear_generated_features_removes_exactly_tagged_witness :
    Manifest.clear_generated_features ⟨"p", [],
        [("features", Item.table [("hand", Item.array [Item.str "x"] none),
          ("gen", Item.array [] (some AUTO_GENERATE_COMMENT))])], false⟩ =
      Except.ok ⟨"p", [],
        [("features", Item.table [("hand", Item.array [Item.str "x"] none)])], false⟩ ∧
    Manifest.clear_generated_features ⟨"p", [],
        [("features", Item.table [("bad", Item.other)])], false⟩ =
      Except.error (Error.MalformedManifest ("value of feature(" ++ "bad" ++ ") is not a array")) :=
  ⟨(clear_generated_features_removes_exactly_tagged
      ⟨"p", [], [("features", Item.table [("hand", Item.array [Item.str "x"] none),
        ("gen", Item.array [] (some AUTO_GENERATE_COMMENT))])], false⟩
      [("hand", Item.array [Item.str "x"] none),
        ("gen", Item.array [] (some AUTO_GENERATE_COMMENT))]
      rfl (by decide)).1 (by decide),
   (clear_generated_features_removes_exactly_tagged
      ⟨"p", [], [("features", Item.table [("bad", Item.other)])], false⟩
      [("bad", Item.other)] rfl (by decide)).2
      [] "bad" Item.other [] rfl (fun kv hkv => absurd hkv (List.not_mem_nil kv)) rfl⟩

/-- C6: within one helper, across any sequence of `add_dependency` /
`propagate_to_crate` calls (failed calls leave the set untouched), no
(package, feature) pair is ever present in both the mandatory and the
optional form. -/
theorem dependency_helper_mandatory_optional_exclusive (name : String)
    (ops : List HelperOp) (p f : String) :
    ¬(Dependency.CrateFeature p f ∈ (runOps ⟨name, []⟩ ops).deps ∧
      Dependency.OptionalCrateFeature p f ∈ (runOps ⟨name, []⟩ ops).deps) :=
  runOps_preserves ops ⟨name, []⟩ (fun _ _ hpf => absurd hpf.1 (List.not_mem_nil _)) p f

/-- Witness for C6 on a concrete call sequence (the second call conflicts and
is rejected, leaving only the mandatory edge). -/
theorem dependency_helper_mandatory_optional_exclusive_witness :
    ¬(Dependency.CrateFeature "a" "f" ∈
        (runOps ⟨"x", []⟩ [HelperOp.addDep "a/f", HelperOp.propagate "a" true]).deps ∧
      Dependency.OptionalCrateFeature "a" "f" ∈
        (runOps ⟨"x", []⟩ [HelperOp.addDep "a/f", HelperOp.propagate "a" true]).deps) :=
  dependency_helper_mandatory_optional_exclusive "x"
    [HelperOp.addDep "a/f", HelperOp.propagate "a" true] "a" "f"

/-- C7: `add_mutually_exclusive_features` fails exactly when more than one
feature was selected, the error carrying every selected feature's name in
selection (input) order — the selected list being the input-order filter of
the features whose environment indicator is present; with at most one
selection it returns the lone selected feature, or none. -/
theorem add_mutually_exclusive_features_spec {T : Type} (m : Manifest)
    (env : String → Bool) (tfn : T → String) (ds : T → List HelperOp) (fs : List T)
    (m' : Manifest) (specified : List T)
    (h : m.add_features env tfn ds fs = some (m', specified)) :
    m.add_mutually_exclusive_features env tfn ds fs =
      some (m', if specified.length > 1 then
          Except.error (Error.MutualExclusiveFeatureError (specified.map tfn))
        else Except.ok specified.head?) ∧
    specified = fs.filter fun x => env (cargo_feature_var (tfn x)) := by
  constructor
  · unfold Manifest.add_mutually_exclusive_features
    rw [h]
  · unfold Manifest.add_features at h
    split at h
    · next t heq =>
      injection h with hpair
      have hsnd : (Manifest.add_features_go env tfn ds fs t).2 = specified :=
        congrArg Prod.snd hpair
      rw [← hsnd]
      exact add_features_go_snd env tfn ds fs t
    · cases h

/-- Witness for C7, mirroring the spec's example: three candidate features,
the environment marks two selected; the call fails naming exactly those two,
in input order. -/
theorem add_mutually_exclusive_features_spec_witness :
    Manifest.add_mutually_exclusive_features
      ⟨"p", [], [("features", Item.table [])], false⟩
      (fun s => decide (s = "CARGO_FEATURE_F1") || decide (s = "CARGO_FEATURE_F2"))
      (fun s : String => s) (fun _ => []) ["f1", "f2", "f3"] =
      some (⟨"p", [],
        [("features", Item.table
          [("f1", Item.array [] (some AUTO_GENERATE_COMMENT)),
           ("f2", Item.array [] (some AUTO_GENERATE_COMMENT)),
           ("f3", Item.array [] (some AUTO_GENERATE_COMMENT))])], false⟩,
        Except.error (Error.MutualExclusiveFeatureError ["f1", "f2"])) ∧
    ["f1", "f2"] = List.filter (fun x => (fun s => decide (s = "CARGO_FEATURE_F1") ||
      decide (s = "CARGO_FEATURE_F2")) (cargo_feature_var x)) ["f1", "f2", "f3"] :=
  add_mutually_exclusive_features_spec
    ⟨"p", [], [("features", Item.table [])], false⟩
    (fun s => decide (s = "CARGO_FEATURE_F1") || decide (s = "CARGO_FEATURE_F2"))
    (fun s : String => s) (fun _ => []) ["f1", "f2", "f3"]
    ⟨"p", [], [("features", Item.table
      [("f1", Item.array [] (some AUTO_GENERATE_COMMENT)),
       ("f2", Item.array [] (some AUTO_GENERATE_COMMENT)),
       ("f3", Item.array [] (some AUTO_GENERATE_COMMENT))])], false⟩
    ["f1", "f2"] rfl

/-- C8: the dependency array written for a feature is the edge set rendered
to strings and sorted lexicographically (`process_feature` renders via
`sortStrings ∘ map into_string`), so the result is sorted and identical for
every declaration order of the same edge set. -/
theorem rendered_dependencies_sorted_and_canonical (l₁ l₂ : List Dependency)
    (hperm : l₁.Perm l₂) :
    sortStrings (l₁.map Dependency.into_string) = sortStrings (l₂.map Dependency.into_string) ∧
    (sortStrings (l₁.map Dependency.into_string)).Sorted depStrLe :=
  ⟨sortStrings_eq_of_perm (hperm.map Dependency.into_string), sortStrings_sorted _⟩

/-- Witness for C8 on two declaration orders of the same two edges. -/
theorem rendered_dependencies_sorted_and_canonical_witness :
    sortStrings ([Dependency.Simple "b",
        Dependency.CrateFeature "a" "x"].map Dependency.into_string) =
      sortStrings ([Dependency.CrateFeature "a" "x",
        Dependency.Simple "b"].map Dependency.into_string) ∧
    (sortStrings ([Dependency.Simple "b",
        Dependency.CrateFeature "a" "x"].map Dependency.into_string)).Sorted depStrLe :=
  rendered_dependencies_sorted_and_canonical
    [Dependency.Simple "b", Dependency.CrateFeature "a" "x"]
    [Dependency.CrateFeature "a" "x", Dependency.Simple "b"]
    (List.Perm.swap (Dependency.CrateFeature "a" "x") (Dependency.Simple "b") [])

/-- C9: when the live feature table contains an entry named `__<name>` at the
moment feature `<name>` is processed, the generated entry written for
`<name>` is a marker-tagged array containing the plain dependency `__<name>`,
for EVERY dependency-declaration callback (including one that adds nothing),
since helper calls only ever insert edges. -/
theorem add_features_auto_link {T : Type} (env : String → Bool) (tfn : T → String)
    (ds : T → List HelperOp) (table : List (String × Item)) (feature : T)
    (h : (assocLookup table ("__" ++ tfn feature)).isSome = true) :
    ∃ deps : List String,
      assocLookup (Manifest.process_feature env tfn ds table feature).1 (tfn feature) =
        some (Item.array (deps.map Item.str) (some AUTO_GENERATE_COMMENT)) ∧
      ("__" ++ tfn feature) ∈ deps := by
  rw [process_feature_eq_of_manual env tfn ds table feature h]
  exact ⟨_, assocLookup_tableInsert_self _ _ _,
    mem_sortStrings.mpr (List.mem_map.mpr
      ⟨Dependency.Simple ("__" ++ tfn feature),
        mem_runOps (ds feature)
          ⟨tfn feature, hsInsert [] (Dependency.Simple ("__" ++ tfn feature))⟩
          ((@mem_hsInsert [] (Dependency.Simple ("__" ++ tfn feature))
            (Dependency.Simple ("__" ++ tfn feature))).mpr (Or.inr rfl)), rfl⟩)⟩

/-- Witness for C9: feature `"x"` with a pre-existing `"__x"` entry and an
empty declaration callback. -/
theorem add_features_auto_link_witness :
    ∃ deps : List String,
      assocLookup (Manifest.process_feature (fun _ => false) (fun s : String => s)
        (fun _ => []) [("__x", Item.array [] none)] "x").1 "x" =
        some (Item.array (deps.map Item.str) (some AUTO_GENERATE_COMMENT)) ∧
      ("__" ++ "x") ∈ deps :=
  add_features_auto_link (fun _ => false) (fun s : String => s) (fun _ => [])
    [("__x", Item.array [] none)] "x" rfl

/-- C10: every manifest produced by `Manifest.new` has a `features` table in
its document (inserted empty when absent), so the two unchecked lookups at
the start of `add_features` (modelled as `Option.none` panics) never fail:
`add_features` returns `some` for every environment, naming function, and
dependency-declaration callback — including callbacks whose helper calls
report conflict or format errors. -/
theorem manifest_new_features_table_and_add_features_total (path : String)
    (document : List (String × Item)) (flag : Bool) (m : Manifest)
    (hok : Manifest.new path document flag = Except.ok m) :
    (∃ t, assocLookup m.document FEATURES_TABLE_NAME = some (Item.table t)) ∧
    (∀ (T : Type) (env : String → Bool) (tfn : T → String) (ds : T → List HelperOp)
      (fs : List T), (m.add_features env tfn ds fs).isSome = true) := by
  have hres : ∃ t, assocLookup m.document FEATURES_TABLE_NAME = some (Item.table t) := by
    unfold Manifest.new at hok
    cases hc : Manifest.collect_features document with
    | error e =>
      rw [hc] at hok
      have hcontra : (Except.error e : Except Error Manifest) = Except.ok m := hok
      cases hcontra
    | ok orig =>
      rw [hc] at hok
      have hok2 : Manifest.clear_generated_features
          ⟨path, orig,
            if (assocLookup document FEATURES_TABLE_NAME).isSome then document
            else document ++ [(FEATURES_TABLE_NAME, Item.table [])], flag⟩
          = Except.ok m := hok
      cases hl : assocLookup document FEATURES_TABLE_NAME with
      | none =>
        rw [hl] at hok2
        rw [if_neg (by simp)] at hok2
        exact clear_generated_features_lookup hok2
          ⟨[], by rw [assocLookup_append_none hl]; rfl⟩
      | some item =>
        rw [hl] at hok2
        rw [if_pos (by simp)] at hok2
        apply clear_generated_features_lookup hok2
        rcases collect_features_ok_shape hc with hnone | hsh
        · rw [hl] at hnone; cases hnone
        · exact hsh
  refine ⟨hres, ?_⟩
  intro T env tfn ds fs
  obtain ⟨t, ht⟩ := hres
  unfold Manifest.add_features
  split
  · rfl
  · next hno => exact absurd ht (hno t)

/-- Witness for C10: loading an empty document inserts the empty `features`
table, and `add_features` then succeeds on a concrete call. -/
theorem manifest_new_features_table_and_add_features_total_witness :
    (∃ t, assocLookup (Manifest.document ⟨"p", [], [("features", Item.table [])], false⟩)
        FEATURES_TABLE_NAME = some (Item.table t)) ∧
    (Manifest.add_features ⟨"p", [], [("features", Item.table [])], false⟩
      (fun _ => false) (fun s : String => s) (fun _ => [HelperOp.addDep "a/b/c"])
      ["x"]).isSome = true :=
  ⟨(manifest_new_features_table_and_add_features_total "p" [] false
      ⟨"p", [], [("features", Item.table [])], false⟩ rfl).1,
   (manifest_new_features_table_and_add_features_total "p" [] false
      ⟨"p", [], [("features", Item.table [])], false⟩ rfl).2
      String (fun _ => false) (fun s => s) (fun _ => [HelperOp.addDep "a/b/c"]) ["x"]⟩
